import Mathlib

/-!
Shallow embedding of the core pipeline of the bitget-futures-history
repository, together with proofs about the properties the specification
claims.  Each definition is translated from a named Python function of
the source tree:

  * `removeGlobalDuplicates`  — `remove_global_duplicates`
    (src/lambdas/result_collector/handler.py, lines 397-424)
  * `sortOrders`              — the `all_orders.sort(key=lambda x:
    int(x.get('createTime', 0)), reverse=True)` line used by both
    `combine_and_sort_orders` and `collect_results_from_s3`
  * `genWindows`/`timeWindows`— the window-generation loop of
    `time_range_mapper.lambda_handler`
  * `unifySymbols`            — the ranking/truncation core of
    `symbol_unifier.lambda_handler`
  * `pageAttempt`/`pagesLoop`/`getAllOrdersForSymbol` and
    `symbolProcessorHandler`  — `symbol_processor.handler`
  * `searchStep`/`searchRun`/`symbolSearcherHandler`
                              — `symbol_searcher.handler`
  * `collectResultsFromS3`    — `collect_results_from_s3`
    (result_collector), with the S3 bus modelled as explicit state
  * `resultCollectorSummary`  — the summary-building branch of
    `result_collector.lambda_handler`
-/

/-- A JSON scalar as it can appear in an order field.  Only the shapes
relevant to the claims are modelled: an integer, a string, or JSON null. -/
inductive JVal where
  | jint (n : Int)
  | jstr (s : String)
  | jnull
deriving DecidableEq, Repr

/-- An exchange order record, restricted to the fields the core reads:
`orderId` (dedup key), `createTime` (sort key) and the
`processing_symbol` tag added by the aggregator.  `none` models an
absent key. -/
structure Order where
  orderId : Option String
  createTime : Option JVal
  processing_symbol : Option String
deriving DecidableEq, Repr

/-- Python truthiness of an optional string: `None` and the empty string
are falsy (`if not order_id:` in the source). -/
def pyFalsy : Option String → Bool
  | none => true
  | some s => s = ""

/-- Digit-sequence accumulator used to model Python `int(str)`. -/
def digitsToNat (acc : Nat) : List Char → Option Nat
  | [] => some acc
  | c :: cs => if c.isDigit then digitsToNat (acc * 10 + (c.toNat - 48)) cs else none

/-- Model of Python `int(s)` on a string: an optional sign followed by a
nonempty digit sequence parses, anything else raises (returns `none`).
(Surrounding whitespace, which Python also accepts, is not modelled.) -/
def pyStrToInt (s : String) : Option Int :=
  match s.toList with
  | [] => none
  | '-' :: cs =>
    match cs with
    | [] => none
    | _ => (digitsToNat 0 cs).map (fun n => -(n : Int))
  | '+' :: cs =>
    match cs with
    | [] => none
    | _ => (digitsToNat 0 cs).map (fun n => (n : Int))
  | cs => (digitsToNat 0 cs).map (fun n => (n : Int))

/-- Model of Python `int(v)` on a JSON value: integers pass through,
strings are parsed, `null` raises (`int(None)` is a TypeError). -/
def pyToInt : JVal → Option Int
  | .jint n => some n
  | .jstr s => pyStrToInt s
  | .jnull => none

/-- The sort key `int(x.get('createTime', 0))`: an absent key defaults
to `0`; a present value goes through `int()`, which can fail. -/
def createKeyOpt (o : Order) : Option Int :=
  match o.createTime with
  | none => some 0
  | some v => pyToInt v

/-- Defaulted sort key (meaningful on orders whose key coerces). -/
def createKeyD (o : Order) : Int := (createKeyOpt o).getD 0

/-- Newest-first comparison on orders by coerced creation time. -/
def ctGE (a b : Order) : Prop := createKeyD b ≤ createKeyD a

instance : DecidableRel ctGE := fun _ _ => Int.decLe _ _

instance : IsTotal Order ctGE := ⟨fun x y => le_total (createKeyD y) (createKeyD x)⟩

instance : IsTrans Order ctGE := ⟨fun _ _ _ hab hbc => le_trans hbc hab⟩

/-- Model of `all_orders.sort(key=lambda x: int(x.get('createTime', 0)),
reverse=True)`.  Python computes every key first and raises on the first
uncoercible one; here the whole call returns an error when any key fails,
and otherwise sorts newest first. -/
def sortOrders (l : List Order) : Except String (List Order) :=
  if l.all (fun o => (createKeyOpt o).isSome) then
    .ok (List.insertionSort ctGE l)
  else
    .error "invalid create time"

/-- `remove_global_duplicates` loop body: `seen` is the set of already
kept truthy order ids; a falsy (absent/empty) id is always kept; a
truthy id is kept only on first sight. -/
def dedupGo (seen : List String) : List Order → List Order
  | [] => []
  | o :: rest =>
    match o.orderId with
    | none => o :: dedupGo seen rest
    | some s =>
      if s = "" then o :: dedupGo seen rest
      else if s ∈ seen then dedupGo seen rest
      else o :: dedupGo (s :: seen) rest

/-- `remove_global_duplicates(all_orders)`: first occurrence of each
non-empty `orderId` wins; orders with an absent or empty id are kept. -/
def removeGlobalDuplicates (allOrders : List Order) : List Order :=
  dedupGo [] allOrders

/-- The truthy ids of a list of orders, in order, with multiplicity. -/
def tids (l : List Order) : List String :=
  l.filterMap (fun o => match o.orderId with
    | none => none
    | some s => if s = "" then none else some s)

/-- How many orders of `l` carry the id `s`. -/
def countMatching (s : String) : List Order → Nat
  | [] => 0
  | o :: rest => (if o.orderId = some s then 1 else 0) + countMatching s rest

/-- The first order of `l` carrying the id `s`, if any. -/
def firstWith (s : String) : List Order → Option Order
  | [] => none
  | o :: rest => if o.orderId = some s then some o else firstWith s rest

/-- One time window of the partitioner, as built by
`time_range_mapper.lambda_handler` (the derived ISO date strings and the
`duration_days` float are presentation-only and not modelled). -/
structure TimeWindow where
  window_id : Int
  start_time : Int
  end_time : Int
deriving DecidableEq, Repr

/-- The window-generation loop of `time_range_mapper.lambda_handler`:
`while current_start < end_time: current_end = min(current_start +
window_size_ms - 1, end_time); append; current_start = current_end + 1`.
The loop is embedded with explicit fuel; `timeWindows` supplies fuel that
is sufficient whenever the window size is at least 1. -/
def genWindows (windowSize endTime : Int) : Nat → Int → Int → List TimeWindow
  | 0, _, _ => []
  | fuel + 1, currentStart, windowId =>
    if currentStart < endTime then
      let currentEnd := min (currentStart + windowSize - 1) endTime
      { window_id := windowId, start_time := currentStart, end_time := currentEnd } ::
        genWindows windowSize endTime fuel (currentEnd + 1) (windowId + 1)
    else []

/-- The partitioner generalized over its constants: `now` is the current
time, `lookback` the total lookback duration and `windowSize` the window
size (the source fixes `lookback = 9*365*24*60*60*1000` and
`windowSize = 3*30*24*60*60*1000`). -/
def timeWindows (now lookback windowSize : Int) : List TimeWindow :=
  genWindows windowSize now lookback.toNat (now - lookback) 1

/-- The instantiation actually run by the handler: nine years of
lookback split into three-month windows. -/
def timeRangeMapperWindows (now : Int) : List TimeWindow :=
  timeWindows now (9 * 365 * 24 * 60 * 60 * 1000) (3 * 30 * 24 * 60 * 60 * 1000)

/-- The largest instant actually covered by the window loop started at
`cs`: when the window size divides `e - cs` exactly, the loop exits with
`current_start = e` and the instant `e` itself is never covered. -/
def lastCovered (W e cs : Int) : Int :=
  if W ∣ (e - cs) then e - 1 else e

/-- One per-window result as consumed by `symbol_unifier.lambda_handler`
after envelope unwrapping: `payload.get('statusCode', 500)` and
`payload.get('symbols', [])`. -/
structure WindowResult where
  statusCode : Int
  symbols : List String
deriving DecidableEq, Repr

/-- All symbol occurrences contributed by successful windows, in
iteration order: the unifier adds every listed symbol of every
`statusCode == 200` window to the frequency counter. -/
def successSymbols (results : List WindowResult) : List String :=
  (results.filter (fun r => r.statusCode = 200)).flatMap (fun r => r.symbols)

/-- `symbol_frequency[s]` after the unifier's accumulation loop. -/
def symFreq (results : List WindowResult) (s : String) : Nat :=
  (successSymbols results).count s

/-- The distinct symbols of the unifier's `all_symbols` set. -/
def distinctSyms (results : List WindowResult) : List String :=
  (successSymbols results).dedup

/-- The sort key `(-symbol_frequency[x], x)` of the unifier, as a
relation: higher frequency first, alphabetical on ties. -/
def symRank (results : List WindowResult) (a b : String) : Prop :=
  symFreq results b < symFreq results a ∨ (symFreq results a = symFreq results b ∧ a ≤ b)

instance symRankDecidable (results : List WindowResult) : DecidableRel (symRank results) :=
  fun a b => by unfold symRank; infer_instance

/-- The output of the unifier that the claims inspect. -/
structure UnifyOut where
  statusCode : Nat
  symbols : List String
  totalUnique : Nat
  truncated : Bool
deriving DecidableEq, Repr

/-- The ranking/truncation core of `symbol_unifier.lambda_handler`:
`sorted(all_symbols, key=lambda x: (-symbol_frequency[x], x))`, truncated
to `max_symbols = 350`, with `truncated = total_unique_symbols >
max_symbols`. -/
def unifySymbols (results : List WindowResult) : UnifyOut :=
  let sortedSymbols := List.insertionSort (symRank results) (distinctSyms results)
  let finalSymbols := sortedSymbols.take 350
  { statusCode := 200
    symbols := finalSymbols
    totalUnique := (distinctSyms results).length
    truncated := decide (350 < (distinctSyms results).length) }

/-- Whether `needle` occurs at the start of `hay` (on character lists). -/
def listHasPre : List Char → List Char → Bool
  | [], _ => true
  | _ :: _, [] => false
  | n :: ns, h :: hs => n = h && listHasPre ns hs

/-- Whether `needle` occurs anywhere inside `hay` (on character lists);
models Python's `needle in hay` on strings. -/
def listHasSub (needle : List Char) : List Char → Bool
  | [] => listHasPre needle []
  | h :: hs => listHasPre needle (h :: hs) || listHasSub needle hs

/-- Python's `needle in hay` substring test. -/
def strHasSub (hay needle : String) : Bool :=
  listHasSub needle.toList hay.toList

/-- Python's `s.startswith(pre)` (used for the S3 `Prefix=` filter). -/
def strStarts (s pre : String) : Bool :=
  listHasPre pre.toList s.toList

/-- Python's `s.endswith(suf)` (used for the `.json` filter). -/
def strEnds (s suf : String) : Bool :=
  listHasPre suf.toList.reverse s.toList.reverse

/-- Python's `str.lower()`. -/
def pyLower (s : String) : String :=
  String.mk (s.toList.map Char.toLower)

/-- The symbol processor's delisted-symbol test on
`error_str = str(api_error).lower()`: `'40309' in error_str or 'symbol
has been removed' in error_str or 'removed' in error_str`. -/
def isRemovedErr (msg : String) : Bool :=
  let s := pyLower msg
  strHasSub s "40309" || strHasSub s "symbol has been removed" || strHasSub s "removed"

/-- The symbol processor's rate-limit test: `'429' in error_str or 'too
many requests' in error_str or 'rate limit' in error_str`. -/
def isRateLimitErr (msg : String) : Bool :=
  let s := pyLower msg
  strHasSub s "429" || strHasSub s "too many requests" || strHasSub s "rate limit"

/-- The symbol searcher's rate-limit test: `'rate' in error_msg or '429'
in error_msg`. -/
def isRateMsgSearcher (msg : String) : Bool :=
  let s := pyLower msg
  strHasSub s "rate" || strHasSub s "429"

/-- One page of `mix_get_history_orders` data: `orderList` (absent or
JSON null collapse to `none`, which the source coerces to `[]`), `endId`
(`data.get('endId', '')` defaults to the empty string) and `nextFlag`
(`data.get('nextFlag', False)` defaults to false). -/
structure PageData where
  orderList : Option (List Order)
  endId : Option String
  nextFlag : Option Bool
deriving DecidableEq, Repr

/-- The outcome of one exchange-adapter call, indexed by a call counter:
either a response (where `ok none` stands for a falsy response or a
response whose `data` field is falsy, which both take the same `break`
path in the source) or a raised exception with its message. -/
inductive ClientResult where
  | ok (data : Option PageData)
  | exn (msg : String)
deriving DecidableEq, Repr

/-- The result of the symbol processor's inner per-page retry loop
(`while not page_success and page_retries <= max_rate_limit_retries`). -/
inductive InnerOutcome where
  | pageOk (newAcc : List Order) (newEndId : String)
  | complete (finalOrders : List Order)
  | removedEmpty
  | emptyBreak
  | raised (msg : String)
deriving DecidableEq, Repr

/-- One pass of the symbol processor's inner retry loop for a single
page.  `retries` is the source's `page_retries` counter; `fuel` is the
structural-recursion budget, kept equal to `6 - retries` by every caller
so that the `fuel = 0` branch is unreachable.  On a rate-limit error the
same page is retried with `page_retries + 1` as long as
`page_retries + 1 <= 5`; the sixth failure raises.  A delisted-symbol
error returns the empty list; any other error raises.  The second
component is the updated call counter. -/
def pageAttempt (client : Nat → ClientResult) :
    Nat → List Order → String → Nat → Nat → InnerOutcome × Nat
  | 0, _, _, callIdx, _ => (.raised "retry fuel exhausted", callIdx)
  | fuel + 1, acc, lastEndId, callIdx, retries =>
    match client callIdx with
    | .ok none => (.emptyBreak, callIdx + 1)
    | .ok (some pd) =>
      let orders := pd.orderList.getD []
      let acc2 := acc ++ orders
      if pd.nextFlag.getD false then
        (.pageOk acc2 (pd.endId.getD ""), callIdx + 1)
      else
        (.complete acc2, callIdx + 1)
    | .exn msg =>
      if isRemovedErr msg then (.removedEmpty, callIdx + 1)
      else if isRateLimitErr msg then
        if retries + 1 ≤ 5 then
          pageAttempt client fuel acc lastEndId (callIdx + 1) (retries + 1)
        else (.raised msg, callIdx + 1)
      else (.raised msg, callIdx + 1)

/-- The symbol processor's outer pagination loop (`while page_count <
max_pages`), with `pagesLeft` counting the remaining iterations out of
`max_pages = 300`.  Exhausting the page budget returns the accumulated
orders (the source logs a truncation warning but still returns).  The
second component is the number of adapter calls made. -/
def pagesLoop (client : Nat → ClientResult) :
    Nat → List Order → String → Nat → Except String (List Order) × Nat
  | 0, acc, _, callIdx => (.ok acc, callIdx)
  | pagesLeft + 1, acc, lastEndId, callIdx =>
    match pageAttempt client 6 acc lastEndId callIdx 0 with
    | (.pageOk acc2 endId2, c2) => pagesLoop client pagesLeft acc2 endId2 c2
    | (.complete orders, c2) => (.ok orders, c2)
    | (.removedEmpty, c2) => (.ok [], c2)
    | (.emptyBreak, c2) => pagesLoop client pagesLeft acc lastEndId c2
    | (.raised m, c2) => (.error m, c2)

/-- `get_all_orders_for_symbol(client, symbol)`: full pagination from
the 9-year range start, `page_size = 100`, `max_pages = 300`, beginning
with an empty `last_end_id`.  Returns the order list or the propagated
exception, paired with the number of adapter calls. -/
def getAllOrdersForSymbol (client : Nat → ClientResult) :
    Except String (List Order) × Nat :=
  pagesLoop client 300 [] "" 0

/-- The invocation event of the symbol processor (`event.get('symbol')`). -/
structure ProcEvent where
  symbol : Option String
deriving DecidableEq, Repr

/-- The three API credential environment variables read by the symbol
processor. -/
structure ProcEnv where
  apiKey : Option String
  secretKey : Option String
  passphrase : Option String
deriving DecidableEq, Repr

/-- Side-effect trace of one symbol-processor invocation: number of
exchange-adapter calls and number of attempted bus writes. -/
structure ProcTrace where
  apiCalls : Nat
  s3Writes : Nat
deriving DecidableEq, Repr

/-- `symbol_processor.lambda_handler`: a falsy `symbol` or any falsy
credential returns `{}` before the client is built; otherwise the orders
are fetched and, when nonempty, written to the bus
(`store_orders_in_s3`, one `put_object` attempt).  An exception from
`get_all_orders_for_symbol` is re-raised. -/
def symbolProcessorHandler (event : ProcEvent) (env : ProcEnv)
    (client : Nat → ClientResult) : Except String Unit × ProcTrace :=
  if pyFalsy event.symbol then (.ok (), ⟨0, 0⟩)
  else if pyFalsy env.apiKey || pyFalsy env.secretKey || pyFalsy env.passphrase then
    (.ok (), ⟨0, 0⟩)
  else
    match getAllOrdersForSymbol client with
    | (.ok orders, calls) => (.ok (), ⟨calls, if orders.isEmpty then 0 else 1⟩)
    | (.error m, calls) => (.error m, ⟨calls, 0⟩)

/-- An order as read by the symbol searcher: only `symbol` and `orderId`
are accessed. -/
structure SOrder where
  symbol : Option String
  orderId : Option String
deriving DecidableEq, Repr

/-- One page of `mix_get_productType_history_orders` data for the
searcher. -/
structure SPage where
  orderList : Option (List SOrder)
  endId : Option String
  nextFlag : Option Bool
deriving DecidableEq, Repr

/-- The outcome of one searcher adapter call (`ok none` collapses a
falsy response and a falsy/absent `data` field, which both make
`order_list` empty and hit the same `break`). -/
inductive SResp where
  | ok (data : Option SPage)
  | exn (msg : String)
deriving DecidableEq, Repr

/-- `symbols.add(sym)` for every order of the page whose `symbol` is
truthy (`if sym:`), preserving first-seen order of the set. -/
def addSyms (acc : List String) : List SOrder → List String
  | [] => acc
  | o :: rest =>
    match o.symbol with
    | none => addSyms acc rest
    | some s =>
      if s = "" then addSyms acc rest
      else if s ∈ acc then addSyms acc rest
      else addSyms (acc ++ [s]) rest

/-- Loop state of `search_symbols_in_window`: the accumulated symbol
set, `last_end_id`, the page counter and the adapter call counter. -/
structure SearchState where
  symbols : List String
  lastEndId : String
  page : Nat
  callIdx : Nat
deriving DecidableEq, Repr

/-- Result of one iteration of the searcher's `while page <= max_pages`
body: either the loop stops (break / return, carrying the symbol set),
or it continues with an updated state. -/
inductive SStep where
  | halt (symbols : List String)
  | next (s : SearchState)
deriving DecidableEq, Repr

/-- One iteration of `search_symbols_in_window`'s loop body.  A
rate-limit-classified exception executes `continue` without touching the
page counter, the symbol set or `last_end_id` (and without any retry
counter: the backoff sleep in the source is commented out); any other
exception breaks out of the loop.  An empty page breaks; reaching 60
symbols breaks early; a false `nextFlag` breaks; otherwise the cursor
advances (`end_id or order_list[-1].get('orderId', '')`) and the page
counter increments. -/
def searchStep (client : Nat → SResp) (s : SearchState) : SStep :=
  match client s.callIdx with
  | .exn msg =>
    if isRateMsgSearcher msg then
      .next { s with callIdx := s.callIdx + 1 }
    else
      .halt s.symbols
  | .ok none => .halt s.symbols
  | .ok (some pd) =>
    let orderList := pd.orderList.getD []
    if orderList.isEmpty then .halt s.symbols
    else
      let syms := addSyms s.symbols orderList
      if 60 ≤ syms.length then .halt syms
      else if pd.nextFlag.getD false then
        let fallbackId := ((orderList.getLast?.bind (fun o => o.orderId)).getD "")
        let newEndId :=
          match pd.endId with
          | some e => if e = "" then fallbackId else e
          | none => fallbackId
        .next { symbols := syms, lastEndId := newEndId, page := s.page + 1,
                callIdx := s.callIdx + 1 }
      else .halt syms

/-- The searcher's `while page <= max_pages` loop with `max_pages = 30`,
embedded with explicit fuel; `none` means the fuel ran out before the
loop terminated.  Leaving the loop by the page-ceiling condition returns
the accumulated symbols. -/
def searchRun (client : Nat → SResp) : Nat → SearchState → Option (List String)
  | 0, _ => none
  | fuel + 1, s =>
    if s.page ≤ 30 then
      match searchStep client s with
      | .halt syms => some syms
      | .next s2 => searchRun client fuel s2
    else
      some s.symbols

/-- Initial state of `search_symbols_in_window`: empty symbol set, empty
cursor, page 1. -/
def initSearchState : SearchState := ⟨[], "", 1, 0⟩

/-- The searcher invocation response that the claims inspect. -/
structure SearcherResponse where
  statusCode : Nat
  symbols : List String
deriving DecidableEq, Repr

/-- `symbol_searcher.lambda_handler` on a well-formed event with
credentials present: `search_symbols_in_window` catches every exception
internally (returning whatever it accumulated), so the handler always
wraps the returned set in a `statusCode: 200` response. -/
def symbolSearcherHandler (client : Nat → SResp) (fuel : Nat) :
    Option SearcherResponse :=
  (searchRun client fuel initSearchState).map (fun syms => ⟨200, syms⟩)

/-- A per-symbol result file on the bus: the parsed JSON body
(`data.get('symbol', 'unknown')`, `data.get('orders', [])`). -/
structure SymbolFile where
  symbol : Option String
  orders : List Order
deriving DecidableEq, Repr

/-- The durable bus as explicit state: keys paired with their parsed
content, where `none` models a body that fails to download or parse
(`json.loads` raising). -/
def Bus : Type := List (String × Option SymbolFile)

/-- `list_objects_v2(Bucket=..., Prefix='symbol_results/')`: a read-only
listing of the keys under a prefix.  The bus is threaded unchanged. -/
def busList (bus : Bus) (pre : String) : List String × Bus :=
  ((bus.map (fun kv => kv.1)).filter (fun k => strStarts k pre), bus)

/-- `get_object(Bucket=..., Key=key)` followed by `json.loads`: a
read-only fetch.  A missing key behaves like a failed download.  The bus
is threaded unchanged. -/
def busGet (bus : Bus) (key : String) : Option SymbolFile × Bus :=
  ((bus.find? (fun kv => kv.1 = key)).bind (fun kv => kv.2), bus)

/-- The per-file loop of `collect_results_from_s3`: keys not ending in
`.json` are skipped; a parsed file contributes its orders (each tagged
with `processing_symbol`) when nonempty and its symbol to
`successful_symbols` either way; a failed download/parse increments the
failure count.  Accumulates `(all_orders, successful_symbols,
failed_count)` while threading the bus through every read. -/
def collectFold (bus : Bus) : List String → (List Order × List String × Nat) × Bus
  | [] => (([], [], 0), bus)
  | key :: rest =>
    if strEnds key ".json" then
      match busGet bus key with
      | (some file, bus1) =>
        let symbol := file.symbol.getD "unknown"
        let tagged :=
          if file.orders.length > 0 then
            file.orders.map (fun o => { o with processing_symbol := some symbol })
          else []
        match collectFold bus1 rest with
        | ((os, ss, fc), bus2) => ((tagged ++ os, symbol :: ss, fc), bus2)
      | (none, bus1) =>
        match collectFold bus1 rest with
        | ((os, ss, fc), bus2) => ((os, ss, fc + 1), bus2)
    else
      match collectFold bus rest with
      | ((os, ss, fc), bus2) => ((os, ss, fc), bus2)

/-- The aggregate output of `collect_results_from_s3` that the claims
inspect. -/
structure CollectOut where
  orders : List Order
  totalOrders : Nat
  symbolsProcessed : Nat
  symbolsFailed : Nat
deriving DecidableEq, Repr

/-- `collect_results_from_s3()`: list the keys under `symbol_results/`,
download and parse each `.json` file, deduplicate globally, then sort
newest first (the same `int(...createTime...)` sort, whose failure
propagates out as an exception).  The function only lists and reads: the
resulting bus state is returned explicitly alongside the result. -/
def collectResultsFromS3 (bus : Bus) : Except String CollectOut × Bus :=
  match busList bus "symbol_results/" with
  | (keys, bus1) =>
    match collectFold bus1 keys with
    | ((allOrders, succ, failedCount), bus2) =>
      match sortOrders (removeGlobalDuplicates allOrders) with
      | .ok sorted =>
        (.ok { orders := sorted, totalOrders := sorted.length,
               symbolsProcessed := succ.length, symbolsFailed := failedCount }, bus2)
      | .error m => (.error m, bus2)

/-- The body of the result collector's response: either a pointer to the
stored merged artifact, or the inline fallback (`orders[:50]` plus the
`orders_truncated` flag) used when the bus write failed. -/
inductive SummaryBody where
  | stored (s3Key : String)
  | fallbackTrunc (orders : List Order) (ordersTruncated : Bool)
deriving DecidableEq, Repr

/-- The result collector's HTTP-shaped response. -/
structure CollectorResponse where
  statusCode : Nat
  body : SummaryBody
deriving DecidableEq, Repr

/-- The summary-building branch of `result_collector.lambda_handler`
after the combine step: `store_result_in_s3` either returns a key
(`some`) or swallows its own exception and returns `None`; on `None` the
handler answers with the first 50 orders inline
(`combined_result['orders'][:50] if len(...) > 50 else ...`) and
`orders_truncated = len(...) > 50`.  Both branches use
`statusCode: 200`. -/
def resultCollectorSummary (combinedOrders : List Order)
    (s3Result : Option String) : CollectorResponse :=
  match s3Result with
  | some key => ⟨200, .stored key⟩
  | none =>
    ⟨200, .fallbackTrunc
      (if combinedOrders.length > 50 then combinedOrders.take 50 else combinedOrders)
      (decide (combinedOrders.length > 50))⟩

/-- A searcher adapter that returns one page containing BTCUSDT and then
raises a non-rate-limit error on every further call. -/
def clientStopsOnBoom : Nat → SResp := fun i =>
  if i = 0 then .ok (some ⟨some [⟨some "BTCUSDT", some "o1"⟩], some "e1", some true⟩)
  else .exn "boom"

/-- A searcher adapter that raises a rate-limit error on every call. -/
def client429 : Nat → SResp := fun _ => .exn "429 Too Many Requests"

/-- A two-key bus: one consumed per-symbol partial result and one final
merged artifact. -/
def demoBus : Bus :=
  [("symbol_results/BTCUSDT_1.json",
    some ⟨some "BTCUSDT", [⟨some "a", some (.jint 100), none⟩]⟩),
   ("results/final.json", none)]

/-- A small order list with one duplicated id, one absent id and one
empty id, used to instantiate the dedup claim. -/
def demoOrders : List Order :=
  [⟨some "x", some (.jint 1), none⟩,
   ⟨none, some (.jint 2), none⟩,
   ⟨some "x", some (.jint 3), none⟩,
   ⟨some "", some (.jint 4), none⟩,
   ⟨some "y", some (.jint 5), none⟩]

/-! ## Lemmas about `remove_global_duplicates` -/

lemma tids_cons (o : Order) (l : List Order) :
    tids (o :: l) =
      (match o.orderId with
       | none => tids l
       | some s => if s = "" then tids l else s :: tids l) := by
  rcases ho : o.orderId with _ | s
  · simp [tids, List.filterMap_cons, ho]
  · by_cases hs : s = "" <;> simp [tids, List.filterMap_cons, ho, hs]

lemma dedupGo_tids_nodup_disjoint :
    ∀ (l : List Order) (seen : List String),
      (tids (dedupGo seen l)).Nodup ∧ ∀ s ∈ tids (dedupGo seen l), s ∉ seen := by
  intro l
  induction l with
  | nil => intro seen; simp [dedupGo, tids]
  | cons o rest ih =>
    intro seen
    rcases ho : o.orderId with _ | s
    · have h := ih seen
      simp [dedupGo, ho, tids_cons]
      exact h
    · by_cases hs : s = ""
      · have h := ih seen
        simp [dedupGo, ho, hs, tids_cons]
        exact h
      · by_cases hmem : s ∈ seen
        · have h := ih seen
          simp [dedupGo, ho, hs, hmem]
          exact h
        · have h := ih (s :: seen)
          simp only [dedupGo, ho, hs, hmem, if_false]
          rw [tids_cons]
          simp only [ho, hs, if_false]
          constructor
          · refine List.nodup_cons.mpr ⟨?_, h.1⟩
            intro hcontra
            exact (h.2 s hcontra) (List.mem_cons_self s seen)
          · intro t ht
            rcases List.mem_cons.mp ht with rfl | ht2
            · exact hmem
            · intro htseen
              exact (h.2 t ht2) (List.mem_cons_of_mem s htseen)

lemma dedupGo_eq_self :
    ∀ (l : List Order) (seen : List String),
      (tids l).Nodup → (∀ s ∈ tids l, s ∉ seen) → dedupGo seen l = l := by
  intro l
  induction l with
  | nil => intro seen _ _; rfl
  | cons o rest ih =>
    intro seen hnd hdis
    rcases ho : o.orderId with _ | s
    · rw [tids_cons] at hnd hdis
      simp only [ho] at hnd hdis
      simp [dedupGo, ho]
      exact ih seen hnd hdis
    · by_cases hs : s = ""
      · rw [tids_cons] at hnd hdis
        simp only [ho, hs, if_true] at hnd hdis
        simp [dedupGo, ho, hs]
        exact ih seen hnd hdis
      · rw [tids_cons] at hnd hdis
        simp only [ho, hs, if_false] at hnd hdis
        have hsnotseen : s ∉ seen := hdis s (List.mem_cons_self s _)
        have hnd2 := List.nodup_cons.mp hnd
        simp [dedupGo, ho, hs, hsnotseen]
        refine ih (s :: seen) hnd2.2 ?_
        intro t ht htin
        rcases List.mem_cons.mp htin with rfl | htseen
        · exact hnd2.1 ht
        · exact hdis t (List.mem_cons_of_mem s ht) htseen

lemma dedupGo_cons (seen : List String) (o : Order) (rest : List Order) :
    dedupGo seen (o :: rest) =
      (match o.orderId with
       | none => o :: dedupGo seen rest
       | some s =>
         if s = "" then o :: dedupGo seen rest
         else if s ∈ seen then dedupGo seen rest
         else o :: dedupGo (s :: seen) rest) := rfl

lemma dedupGo_countMatching_zero :
    ∀ (l : List Order) (seen : List String) (s : String), s ≠ "" → s ∈ seen →
      countMatching s (dedupGo seen l) = 0 := by
  intro l
  induction l with
  | nil => intro seen s _ _; simp [dedupGo, countMatching]
  | cons o rest ih =>
    intro seen s hs hmem
    rcases ho : o.orderId with _ | t
    · have hno : o.orderId ≠ some s := by rw [ho]; simp
      simp only [dedupGo_cons, ho, countMatching]
      simp [ih seen s hs hmem]
    · by_cases ht : t = ""
      · have hno : o.orderId ≠ some s := by
          rw [ho, ht]; intro he; injection he with h2; exact hs h2.symm
        simp only [dedupGo_cons, ho]
        rw [if_pos ht]
        simp only [countMatching]
        rw [if_neg hno, ih seen s hs hmem]
      · by_cases htseen : t ∈ seen
        · simp only [dedupGo_cons, ho]
          rw [if_neg ht, if_pos htseen]
          exact ih seen s hs hmem
        · have hts : t ≠ s := fun he => htseen (he ▸ hmem)
          have hno : o.orderId ≠ some s := by
            rw [ho]; intro he; injection he with h2; exact hts h2
          simp only [dedupGo_cons, ho]
          rw [if_neg ht, if_neg htseen]
          simp only [countMatching]
          rw [if_neg hno, ih (t :: seen) s hs (List.mem_cons_of_mem t hmem)]

lemma dedupGo_countMatching_one :
    ∀ (l : List Order) (seen : List String) (s : String), s ≠ "" → s ∉ seen →
      (∃ o ∈ l, o.orderId = some s) →
      countMatching s (dedupGo seen l) = 1 := by
  intro l
  induction l with
  | nil => intro seen s _ _ hex; simp at hex
  | cons o rest ih =>
    intro seen s hs hseen hex
    rcases ho : o.orderId with _ | t
    · have hno : o.orderId ≠ some s := by rw [ho]; simp
      have hrest : ∃ x ∈ rest, x.orderId = some s := by
        rcases hex with ⟨x, hx, hxid⟩
        rcases List.mem_cons.mp hx with rfl | hx2
        · exact absurd hxid hno
        · exact ⟨x, hx2, hxid⟩
      simp only [dedupGo_cons, ho, countMatching]
      simp [ih seen s hs hseen hrest]
    · by_cases hts : t = s
      · subst hts
        have ht : ¬ t = "" := fun he => hs he
        simp only [dedupGo_cons, ho]
        rw [if_neg ht, if_neg hseen]
        simp only [countMatching]
        rw [if_pos ho,
          dedupGo_countMatching_zero rest (t :: seen) t hs (List.mem_cons_self t seen)]
      · have hno : o.orderId ≠ some s := by
          rw [ho]; intro he; injection he with h2; exact hts h2
        have hrest : ∃ x ∈ rest, x.orderId = some s := by
          rcases hex with ⟨x, hx, hxid⟩
          rcases List.mem_cons.mp hx with rfl | hx2
          · exact absurd hxid hno
          · exact ⟨x, hx2, hxid⟩
        by_cases ht : t = ""
        · simp only [dedupGo_cons, ho]
          rw [if_pos ht]
          simp only [countMatching]
          rw [if_neg hno, ih seen s hs hseen hrest]
        · by_cases htseen : t ∈ seen
          · simp only [dedupGo_cons, ho]
            rw [if_neg ht, if_pos htseen]
            exact ih seen s hs hseen hrest
          · have hnotin : s ∉ t :: seen := by
              intro hcon
              rcases List.mem_cons.mp hcon with he | h2
              · exact hts he.symm
              · exact hseen h2
            simp only [dedupGo_cons, ho]
            rw [if_neg ht, if_neg htseen]
            simp only [countMatching]
            rw [if_neg hno, ih (t :: seen) s hs hnotin hrest]

lemma dedupGo_firstWith :
    ∀ (l : List Order) (seen : List String) (s : String), s ≠ "" → s ∉ seen →
      firstWith s (dedupGo seen l) = firstWith s l := by
  intro l
  induction l with
  | nil => intro seen s _ _; simp [dedupGo]
  | cons o rest ih =>
    intro seen s hs hseen
    rcases ho : o.orderId with _ | t
    · have hno : o.orderId ≠ some s := by rw [ho]; simp
      simp only [dedupGo_cons, ho, firstWith]
      simp [ih seen s hs hseen]
    · by_cases hts : t = s
      · subst hts
        have ht : ¬ t = "" := fun he => hs he
        simp only [dedupGo_cons, ho]
        rw [if_neg ht, if_neg hseen]
        simp only [firstWith]
        rw [if_pos ho, if_pos ho]
      · have hno : o.orderId ≠ some s := by
          rw [ho]; intro he; injection he with h2; exact hts h2
        by_cases ht : t = ""
        · simp only [dedupGo_cons, ho]
          rw [if_pos ht]
          simp only [firstWith]
          rw [if_neg hno, if_neg hno]
          exact ih seen s hs hseen
        · by_cases htseen : t ∈ seen
          · simp only [dedupGo_cons, ho]
            rw [if_neg ht, if_pos htseen]
            simp only [firstWith]
            rw [if_neg hno]
            exact ih seen s hs hseen
          · have hnotin : s ∉ t :: seen := by
              intro hcon
              rcases List.mem_cons.mp hcon with he | h2
              · exact hts he.symm
              · exact hseen h2
            simp only [dedupGo_cons, ho]
            rw [if_neg ht, if_neg htseen]
            simp only [firstWith]
            rw [if_neg hno, if_neg hno]
            exact ih (t :: seen) s hs hnotin


lemma dedupGo_filter_falsy :
    ∀ (l : List Order) (seen : List String),
      (dedupGo seen l).filter (fun o => pyFalsy o.orderId) =
        l.filter (fun o => pyFalsy o.orderId) := by
  intro l
  induction l with
  | nil => intro seen; simp [dedupGo]
  | cons o rest ih =>
    intro seen
    rcases ho : o.orderId with _ | t
    · simp [dedupGo, ho, List.filter_cons, pyFalsy]
      exact ih seen
    · by_cases ht : t = ""
      · simp [dedupGo, ho, ht, List.filter_cons, pyFalsy]
        exact ih seen
      · by_cases htseen : t ∈ seen
        · have : pyFalsy (some t) = false := by simp [pyFalsy, ht]
          simp [dedupGo, ho, ht, htseen, List.filter_cons, this]
          exact ih seen
        · have : pyFalsy (some t) = false := by simp [pyFalsy, ht]
          simp [dedupGo, ho, ht, htseen, List.filter_cons, this]
          exact ih (t :: seen)

/-! ## Claim theorems -/

/-- C2: global deduplication is idempotent; for every distinct non-empty
`orderId` present in the input the output contains exactly one order
with that id, and it is the first occurrence of the input; orders whose
`orderId` is absent or empty are all retained, in order. -/
theorem c2_dedup_idempotent_unique (l : List Order) :
    removeGlobalDuplicates (removeGlobalDuplicates l) = removeGlobalDuplicates l
  ∧ (∀ s : String, s ≠ "" → (∃ o ∈ l, o.orderId = some s) →
      countMatching s (removeGlobalDuplicates l) = 1
      ∧ firstWith s (removeGlobalDuplicates l) = firstWith s l)
  ∧ (removeGlobalDuplicates l).filter (fun o => pyFalsy o.orderId) =
      l.filter (fun o => pyFalsy o.orderId) := by
  refine ⟨?_, ?_, ?_⟩
  · have h := dedupGo_tids_nodup_disjoint l []
    exact dedupGo_eq_self (dedupGo [] l) [] h.1 (by intro s hs; simp)
  · intro s hs hex
    exact ⟨dedupGo_countMatching_one l [] s hs (by simp) hex,
           dedupGo_firstWith l [] s hs (by simp)⟩
  · exact dedupGo_filter_falsy l []

/-- Witness for C2 at a concrete order list with a duplicated id, an
absent id and an empty id. -/
theorem c2_dedup_idempotent_unique_witness :
    removeGlobalDuplicates (removeGlobalDuplicates demoOrders) = removeGlobalDuplicates demoOrders
  ∧ countMatching "x" (removeGlobalDuplicates demoOrders) = 1
  ∧ firstWith "x" (removeGlobalDuplicates demoOrders) = firstWith "x" demoOrders
  ∧ (removeGlobalDuplicates demoOrders).filter (fun o => pyFalsy o.orderId) =
      demoOrders.filter (fun o => pyFalsy o.orderId) := by
  have h := c2_dedup_idempotent_unique demoOrders
  have h2 := h.2.1 "x" (by decide) (by decide)
  exact ⟨h.1, h2.1, h2.2, h.2.2⟩

/-- C3 counterexample: an order whose `createTime` is present but not
coercible to an integer makes the sort raise (the claim asserts it never
raises and coerces to 0). -/
theorem c3_counterexample :
    sortOrders [⟨some "a", some (.jstr "oops"), none⟩] = .error "invalid create time" := rfl

/-- C3 (amended): an absent `createTime` is coerced to 0; when every
present `createTime` coerces to an integer, the sort returns a
permutation of the input whose coerced creation times are
non-increasing; when some present `createTime` does not coerce, the sort
raises instead of coercing. -/
theorem c3_sort_coercion (l : List Order) :
    (l.all (fun o => (createKeyOpt o).isSome) = true →
      ∃ out, sortOrders l = .ok out ∧ out.Pairwise ctGE ∧ out.Perm l)
  ∧ (l.all (fun o => (createKeyOpt o).isSome) = false →
      sortOrders l = .error "invalid create time")
  ∧ (∀ o : Order, o.createTime = none → createKeyD o = 0) := by
  refine ⟨fun h => ⟨List.insertionSort ctGE l, ?_, ?_, ?_⟩, fun h => ?_, fun o h => ?_⟩
  · simp [sortOrders, h]
  · exact List.sorted_insertionSort ctGE l
  · exact List.perm_insertionSort ctGE l
  · simp [sortOrders, h]
  · simp [createKeyD, createKeyOpt, h]

/-- Witness for C3 (amended) at a concrete coercible order list. -/
theorem c3_sort_coercion_witness :
    ∃ out, sortOrders demoOrders = .ok out ∧ out.Pairwise ctGE ∧ out.Perm demoOrders :=
  (c3_sort_coercion demoOrders).1 (by decide)

/-- C8: when the bus write fails (`store_result_in_s3` returns `None`),
the result collector still answers with `statusCode 200`, inlines at
most 50 orders (exactly `orders[:50]`), and sets the truncation flag
exactly when the merged list exceeds 50 orders. -/
theorem c8_overflow_fallback (orders : List Order) :
    resultCollectorSummary orders none =
      ⟨200, .fallbackTrunc (orders.take 50) (decide (orders.length > 50))⟩
  ∧ (orders.take 50).length ≤ 50 := by
  constructor
  · unfold resultCollectorSummary
    by_cases h : orders.length > 50
    · simp [h]
    · have ht : orders.take 50 = orders := List.take_of_length_le (Nat.le_of_not_lt h)
      simp [h, ht]
  · rw [List.length_take]
    exact min_le_left _ _

/-- C10: a missing or empty `symbol` in the event, or any missing API
credential, makes the symbol processor return the empty object without
raising, without calling the exchange and without writing to the bus. -/
theorem c10_guard_empty_return (ev : ProcEvent) (env : ProcEnv) (client : Nat → ClientResult)
    (h : pyFalsy ev.symbol = true ∨ pyFalsy env.apiKey = true ∨
         pyFalsy env.secretKey = true ∨ pyFalsy env.passphrase = true) :
    symbolProcessorHandler ev env client = (.ok (), ⟨0, 0⟩) := by
  unfold symbolProcessorHandler
  rcases h with h | h | h | h
  · simp [h]
  · by_cases hs : pyFalsy ev.symbol <;> simp [hs, h]
  · by_cases hs : pyFalsy ev.symbol <;> simp [hs, h]
  · by_cases hs : pyFalsy ev.symbol <;> simp [hs, h]

/-- Witness for C10 at a concrete event with no symbol. -/
theorem c10_guard_empty_return_witness :
    symbolProcessorHandler ⟨none⟩ ⟨some "k", some "s", some "p"⟩ (fun _ => .ok none) =
      (.ok (), ⟨0, 0⟩) :=
  c10_guard_empty_return _ _ _ (Or.inl rfl)

/-! ## Lemmas for the per-symbol collector under persistent rate limiting -/

lemma pageAttempt_rate_exhaust (msg : String) (h429 : isRateLimitErr msg = true)
    (hrem : isRemovedErr msg = false) (acc : List Order) (lastEndId : String) :
    ∀ (fuel retries callIdx : Nat), retries + fuel = 6 → retries ≤ 5 →
      pageAttempt (fun _ => ClientResult.exn msg) fuel acc lastEndId callIdx retries =
        (.raised msg, callIdx + fuel) := by
  intro fuel
  induction fuel with
  | zero => intro retries callIdx h1 h2; omega
  | succ n ih =>
    intro retries callIdx h1 h2
    by_cases hr : retries + 1 ≤ 5
    · simp only [pageAttempt, hrem, h429, hr, if_true, if_false, Bool.false_eq_true,
        ite_true, ite_false]
      rw [ih (retries + 1) (callIdx + 1) (by omega) (by omega)]
      have : callIdx + 1 + n = callIdx + (n + 1) := by omega
      rw [this]
    · have hn : n = 0 := by omega
      subst hn
      simp only [pageAttempt, hrem, h429, hr, if_true, if_false, Bool.false_eq_true,
        ite_true, ite_false]

lemma pagesLoop_raise (msg : String) (client : Nat → ClientResult)
    (h : ∀ (acc : List Order) (lastEndId : String) (callIdx : Nat),
      pageAttempt client 6 acc lastEndId callIdx 0 = (.raised msg, callIdx + 6)) :
    ∀ (pagesLeft : Nat) (acc : List Order) (lastEndId : String) (callIdx : Nat),
      1 ≤ pagesLeft →
      pagesLoop client pagesLeft acc lastEndId callIdx = (.error msg, callIdx + 6) := by
  intro pagesLeft acc lastEndId callIdx hp
  cases pagesLeft with
  | zero => omega
  | succ n => simp [pagesLoop, h acc lastEndId callIdx]

/-- C1: an exchange adapter that raises a rate-limit error on every call
makes `get_all_orders_for_symbol` retry the same page five times (six
calls in total) and then propagate the error; the invocation never
returns a partial order list, and the handler re-raises. -/
theorem c1_collector_fail_fast (msg : String) (h429 : isRateLimitErr msg = true)
    (hrem : isRemovedErr msg = false) :
    getAllOrdersForSymbol (fun _ => ClientResult.exn msg) = (.error msg, 6)
  ∧ ∀ (ev : ProcEvent) (env : ProcEnv),
      pyFalsy ev.symbol = false → pyFalsy env.apiKey = false →
      pyFalsy env.secretKey = false → pyFalsy env.passphrase = false →
      symbolProcessorHandler ev env (fun _ => ClientResult.exn msg) =
        (.error msg, ⟨6, 0⟩) := by
  have hp : ∀ (acc : List Order) (lastEndId : String) (callIdx : Nat),
      pageAttempt (fun _ => ClientResult.exn msg) 6 acc lastEndId callIdx 0 =
        (.raised msg, callIdx + 6) := by
    intro acc lastEndId callIdx
    exact pageAttempt_rate_exhaust msg h429 hrem acc lastEndId 6 0 callIdx rfl (by omega)
  have hmain : getAllOrdersForSymbol (fun _ => ClientResult.exn msg) = (.error msg, 6) := by
    have := pagesLoop_raise msg (fun _ => ClientResult.exn msg) hp 300 [] "" 0 (by omega)
    simpa [getAllOrdersForSymbol] using this
  refine ⟨hmain, ?_⟩
  intro ev env h1 h2 h3 h4
  simp [symbolProcessorHandler, h1, h2, h3, h4, hmain]

/-- Witness for C1 with the message "429 too many requests". -/
theorem c1_collector_fail_fast_witness :
    getAllOrdersForSymbol (fun _ => ClientResult.exn "429 too many requests") =
      (.error "429 too many requests", 6)
  ∧ symbolProcessorHandler ⟨some "BTCUSDT"⟩ ⟨some "k", some "s", some "p"⟩
      (fun _ => ClientResult.exn "429 too many requests") =
      (.error "429 too many requests", ⟨6, 0⟩) := by
  have h := c1_collector_fail_fast "429 too many requests" (by decide) (by decide)
  exact ⟨h.1, h.2 ⟨some "BTCUSDT"⟩ ⟨some "k", some "s", some "p"⟩ rfl rfl rfl rfl⟩

/-! ## Searcher behavior under errors -/

/-- C6 counterexample: an adapter that returns one page with BTCUSDT and
then raises a non-rate-limit error makes the searcher invocation return
the partial symbol set with the success status 200, not a failure
status as the claim states. -/
theorem c6_counterexample :
    symbolSearcherHandler clientStopsOnBoom 3 = some ⟨200, ["BTCUSDT"]⟩ := rfl

/-- C6 (amended): a non-rate-limit adapter error during pagination makes
the searcher abort the window immediately with exactly the symbols
accumulated so far, but the invocation wraps that partial set in a
success response (`statusCode 200`); every terminating searcher
invocation reports `statusCode 200`. -/
theorem c6_partial_success_status (client : Nat → SResp) (s : SearchState) (msg : String)
    (hc : client s.callIdx = .exn msg) (hr : isRateMsgSearcher msg = false) :
    searchStep client s = .halt s.symbols
  ∧ ∀ (fuel : Nat) (r : SearcherResponse),
      symbolSearcherHandler client fuel = some r → r.statusCode = 200 := by
  constructor
  · simp [searchStep, hc, hr]
  · intro fuel r h
    unfold symbolSearcherHandler at h
    cases hrun : searchRun client fuel initSearchState with
    | none => rw [hrun] at h; simp at h
    | some syms =>
      rw [hrun] at h
      have h2 : (⟨200, syms⟩ : SearcherResponse) = r := by simpa using h
      rw [← h2]

/-- Witness for C6 (amended) at the concrete failing adapter, in the
state reached after its first page. -/
theorem c6_partial_success_status_witness :
    searchStep clientStopsOnBoom ⟨["BTCUSDT"], "e1", 2, 1⟩ = .halt ["BTCUSDT"]
  ∧ (⟨200, ["BTCUSDT"]⟩ : SearcherResponse).statusCode = 200 := by
  have h := c6_partial_success_status clientStopsOnBoom ⟨["BTCUSDT"], "e1", 2, 1⟩ "boom"
    rfl (by decide)
  exact ⟨h.1, h.2 3 ⟨200, ["BTCUSDT"]⟩ rfl⟩

lemma searchRun_stuck_on_429 :
    ∀ (fuel : Nat) (s : SearchState), s.page ≤ 30 →
      searchRun client429 fuel s = none := by
  intro fuel
  induction fuel with
  | zero => intro s _; rfl
  | succ n ih =>
    intro s hpage
    have hstep : searchStep client429 s = .next { s with callIdx := s.callIdx + 1 } := by
      simp [searchStep, client429, (by decide : isRateMsgSearcher "429 Too Many Requests" = true)]
    simp only [searchRun, hpage, if_true, hstep]
    exact ih { s with callIdx := s.callIdx + 1 } hpage

/-- C7: the searcher has no retry ceiling for rate-limit errors — the
rate-limit branch is a bare `continue` that leaves the page counter
untouched — so under an adapter that raises a rate-limit error on every
call the window search never terminates, however much fuel it is given.
The claim's bounded-retry/bounded-work property fails. -/
theorem c7_searcher_unbounded_retry :
    ∀ fuel : Nat, searchRun client429 fuel initSearchState = none :=
  fun fuel => searchRun_stuck_on_429 fuel initSearchState (by decide)

/-! ## Aggregator bus effects -/

lemma collectFold_bus_unchanged :
    ∀ (keys : List String) (bus : Bus), (collectFold bus keys).2 = bus := by
  intro keys
  induction keys with
  | nil => intro bus; rfl
  | cons key rest ih =>
    intro bus
    have hrest := ih bus
    rcases hcf : collectFold bus rest with ⟨⟨os, ss, fc⟩, bus2⟩
    rw [hcf] at hrest
    simp only at hrest
    cases hse : strEnds key ".json" with
    | false =>
      simp only [collectFold, hse, Bool.false_eq_true, if_false, hcf]
      exact hrest
    | true =>
      simp only [collectFold, hse, if_true, busGet]
      cases hc : (bus.find? (fun kv => kv.1 = key)).bind (fun kv => kv.2) with
      | none => simp only [hcf]; exact hrest
      | some file => simp only [hcf]; exact hrest

/-- C9 counterexample: after a successful collection over a bus holding
one consumed per-symbol partial result, the consumed key is still
present — the aggregator does not delete what it consumed, contrary to
the claim. -/
theorem c9_counterexample :
    (collectResultsFromS3 demoBus).1 =
      .ok ⟨[⟨some "a", some (.jint 100), some "BTCUSDT"⟩], 1, 1, 0⟩
  ∧ (collectResultsFromS3 demoBus).2.map Prod.fst =
      ["symbol_results/BTCUSDT_1.json", "results/final.json"] := ⟨rfl, by decide⟩

/-- C9 (amended): the aggregator's collection step performs no deletion
at all — the bus after `collect_results_from_s3` equals the bus before,
so in particular every key outside the partial-results prefix (and every
key inside it) is left unchanged. -/
theorem c9_no_cleanup (bus : Bus) : (collectResultsFromS3 bus).2 = bus := by
  unfold collectResultsFromS3
  simp only [busList]
  rcases hcf : collectFold bus
      ((bus.map (fun kv => kv.1)).filter (fun k => strStarts k "symbol_results/")) with
    ⟨⟨os, ss, fc⟩, bus2⟩
  have h := collectFold_bus_unchanged
    ((bus.map (fun kv => kv.1)).filter (fun k => strStarts k "symbol_results/")) bus
  rw [hcf] at h
  simp only at h
  cases hs : sortOrders (removeGlobalDuplicates os) with
  | ok sorted => simp only [hcf, hs]; exact h
  | error m => simp only [hcf, hs]; exact h

/-! ## Unifier ranking -/

/-- C5: the unifier's output symbol sequence is ordered by non-increasing
frequency with alphabetical tiebreak, is truncated to at most 350
symbols, and carries `truncated = true` exactly when the number of
distinct symbols exceeds the cap. -/
theorem c5_unifier_ranking (results : List WindowResult) :
    ((unifySymbols results).symbols).Pairwise
        (fun a b => symFreq results b ≤ symFreq results a ∧
          (symFreq results a = symFreq results b → a ≤ b))
  ∧ (unifySymbols results).symbols.length ≤ 350
  ∧ ((unifySymbols results).truncated = true ↔ 350 < (distinctSyms results).length) := by
  haveI : IsTotal String (symRank results) := ⟨by
    intro a b
    unfold symRank
    rcases lt_trichotomy (symFreq results b) (symFreq results a) with h | h | h
    · exact Or.inl (Or.inl h)
    · rcases le_total a b with hab | hab
      · exact Or.inl (Or.inr ⟨h.symm, hab⟩)
      · exact Or.inr (Or.inr ⟨h, hab⟩)
    · exact Or.inr (Or.inl h)⟩
  haveI : IsTrans String (symRank results) := ⟨by
    intro a b c hab hbc
    unfold symRank at hab hbc ⊢
    rcases hab with h1 | ⟨h1, h1b⟩ <;> rcases hbc with h2 | ⟨h2, h2b⟩
    · exact Or.inl (by omega)
    · exact Or.inl (by omega)
    · exact Or.inl (by omega)
    · exact Or.inr ⟨by omega, le_trans h1b h2b⟩⟩
  have hsorted := List.sorted_insertionSort (symRank results) (distinctSyms results)
  have hsymbols : (unifySymbols results).symbols =
      (List.insertionSort (symRank results) (distinctSyms results)).take 350 := rfl
  refine ⟨?_, ?_, ?_⟩
  · rw [hsymbols]
    have hp2 := List.Pairwise.sublist (List.take_sublist 350 _) hsorted
    refine hp2.imp ?_
    intro a b hab
    rcases hab with h | ⟨h, hle⟩
    · exact ⟨le_of_lt h, fun he => absurd he (by omega)⟩
    · exact ⟨le_of_eq h.symm, fun _ => hle⟩
  · rw [hsymbols, List.length_take]
    exact min_le_left _ _
  · show decide (350 < (distinctSyms results).length) = true ↔
      350 < (distinctSyms results).length
    exact decide_eq_true_iff

/-! ## Partitioner geometry -/

lemma genWindows_nil (windowSize e : Int) (fuel : Nat) (cs wid : Int) (h : ¬ cs < e) :
    genWindows windowSize e fuel cs wid = [] := by
  cases fuel with
  | zero => rfl
  | succ n => simp [genWindows, h]

lemma genWindows_cons (W e : Int) (n : Nat) (cs wid : Int) (h : cs < e) :
    genWindows W e (n + 1) cs wid =
      ⟨wid, cs, min (cs + W - 1) e⟩ ::
        genWindows W e n (min (cs + W - 1) e + 1) (wid + 1) := by
  simp [genWindows, h]

lemma lastCovered_shift (W e cs ce : Int) (hce : ce = cs + W - 1) :
    lastCovered W e cs = lastCovered W e (ce + 1) := by
  have hiff : W ∣ (e - cs) ↔ W ∣ (e - (ce + 1)) := by
    constructor
    · intro hd
      have h2 : e - (ce + 1) = (e - cs) - W := by omega
      rw [h2]
      exact dvd_sub hd dvd_rfl
    · intro hd
      have h2 : e - cs = (e - (ce + 1)) + W := by omega
      rw [h2]
      exact dvd_add hd dvd_rfl
  unfold lastCovered
  by_cases hd : W ∣ (e - (ce + 1))
  · rw [if_pos (hiff.mpr hd), if_pos hd]
  · rw [if_neg (fun hc2 => hd (hiff.mp hc2)), if_neg hd]

lemma genWindows_spec (W e : Int) (hW : 1 ≤ W) :
    ∀ (fuel : Nat) (cs wid : Int), cs < e → (e - cs).toNat ≤ fuel →
      (genWindows W e fuel cs wid ≠ []
      ∧ (genWindows W e fuel cs wid).head?.map TimeWindow.start_time = some cs
      ∧ List.Chain' (fun w1 w2 => w2.start_time = w1.end_time + 1)
          (genWindows W e fuel cs wid)
      ∧ (genWindows W e fuel cs wid).Pairwise
          (fun w1 w2 => w1.end_time < w2.start_time)
      ∧ (∀ w ∈ genWindows W e fuel cs wid,
          w.end_time = min (w.start_time + W - 1) e ∧ w.start_time ≤ w.end_time
          ∧ w.end_time ≤ e ∧ cs ≤ w.start_time)
      ∧ (∀ t : Int,
          (∃ w ∈ genWindows W e fuel cs wid, w.start_time ≤ t ∧ t ≤ w.end_time)
          ↔ (cs ≤ t ∧ t ≤ lastCovered W e cs))) := by
  intro fuel
  induction fuel with
  | zero => intro cs wid hcs hfuel; exfalso; omega
  | succ n ih =>
    intro cs wid hcs hfuel
    rw [genWindows_cons W e n cs wid hcs]
    by_cases hc : e ≤ cs + W - 1
    · -- the window is clipped: it is the last one
      have hcee : min (cs + W - 1) e = e := min_eq_right hc
      rw [hcee]
      have hnil : genWindows W e n (e + 1) (wid + 1) = [] :=
        genWindows_nil _ _ _ _ _ (by omega)
      rw [hnil]
      have hndvd : ¬ W ∣ (e - cs) := by
        intro hd
        have := Int.le_of_dvd (by omega) hd
        omega
      refine ⟨by simp, by simp, by simp, by simp, ?_, ?_⟩
      · intro w hw
        rcases List.mem_singleton.mp hw with rfl
        refine ⟨by simp [hcee], by simp; omega, by simp, by simp⟩
      · intro t
        unfold lastCovered
        rw [if_neg hndvd]
        simp only [List.mem_singleton]
        constructor
        · rintro ⟨w, rfl, h1, h2⟩
          simp at h1 h2
          omega
        · intro h
          exact ⟨_, rfl, by simp; omega, by simp; omega⟩
    · have hcel : min (cs + W - 1) e = cs + W - 1 := min_eq_left (by omega)
      rw [hcel]
      by_cases h2 : cs + W < e
      · -- more windows follow
        have ihr := ih (cs + W - 1 + 1) (wid + 1) (by omega) (by omega)
        obtain ⟨hne, hhead, hchain, hpw, hmem, hunion⟩ := ihr
        have hLC := lastCovered_shift W e cs (cs + W - 1) rfl
        refine ⟨by simp, by simp, ?_, ?_, ?_, ?_⟩
        · rw [List.chain'_cons']
          refine ⟨?_, hchain⟩
          intro y hy
          cases hh : (genWindows W e n (cs + W - 1 + 1) (wid + 1)).head? with
          | none => rw [hh] at hy; simp at hy
          | some w0 =>
            rw [hh] at hy hhead
            simp at hhead hy
            subst hy
            simpa using hhead
        · rw [List.pairwise_cons]
          refine ⟨?_, hpw⟩
          intro w2 hw2
          have := (hmem w2 hw2).2.2.2
          simp
          omega
        · intro w hw
          rcases List.mem_cons.mp hw with rfl | hw2
          · exact ⟨by simp [hcel], by simp; omega, by simp; omega, by simp⟩
          · obtain ⟨ha, hb, hc2, hd⟩ := hmem w hw2
            exact ⟨ha, hb, hc2, by omega⟩
        · intro t
          rw [hLC]
          have hLC2 : lastCovered W e (cs + W - 1 + 1) = e - 1 ∨
              lastCovered W e (cs + W - 1 + 1) = e := by
            unfold lastCovered
            split
            · exact Or.inl rfl
            · exact Or.inr rfl
          constructor
          · rintro ⟨w, hw, h1a, h1b⟩
            rcases List.mem_cons.mp hw with rfl | hw2
            · simp at h1a h1b
              constructor
              · omega
              · rcases hLC2 with hq | hq <;> omega
            · have := (hunion t).mp ⟨w, hw2, h1a, h1b⟩
              constructor
              · omega
              · exact this.2
          · rintro ⟨ha, hb⟩
            by_cases ht : t ≤ cs + W - 1
            · exact ⟨_, List.mem_cons_self _ _, by simp; omega, by simp; omega⟩
            · obtain ⟨w, hw, hb2⟩ := (hunion t).mpr ⟨by omega, hb⟩
              exact ⟨w, List.mem_cons_of_mem _ hw, hb2⟩
      · -- the next start lands exactly on e: this clipped-free window is last
        have he2 : cs + W - 1 + 1 = e := by omega
        have hnil : genWindows W e n (cs + W - 1 + 1) (wid + 1) = [] :=
          genWindows_nil _ _ _ _ _ (by omega)
        rw [hnil]
        have hdvd : W ∣ (e - cs) := ⟨1, by omega⟩
        refine ⟨by simp, by simp, by simp, by simp, ?_, ?_⟩
        · intro w hw
          rcases List.mem_singleton.mp hw with rfl
          refine ⟨by simp [hcel], by simp; omega, by simp; omega, by simp⟩
        · intro t
          unfold lastCovered
          rw [if_pos hdvd]
          simp only [List.mem_singleton]
          constructor
          · rintro ⟨w, rfl, h1, h2⟩
            simp at h1 h2
            omega
          · intro h
            exact ⟨_, rfl, by simp; omega, by simp; omega⟩

/-- C4 counterexample: with `now = 10`, `L = 5`, `W = 5` (so `W` divides
`L`) the partitioner produces the single window `[5, 9]` and the instant
`now = 10` is covered by no window, so the union is not `[now - L, now]`
as the claim states. -/
theorem c4_counterexample :
    timeWindows 10 5 5 = [⟨1, 5, 9⟩]
  ∧ ¬ (∃ w ∈ timeWindows 10 5 5, w.start_time ≤ 10 ∧ 10 ≤ w.end_time) :=
  ⟨by decide, by decide⟩

/-- C4 (amended): for every `now`, `L > 0` and `W > 0` the windows are
nonempty, start at `now - L`, are contiguous (`start_{i+1} = end_i + 1`)
and pairwise disjoint, and every window's end is
`min(start + W - 1, now)`; the union of the windows is
`[now - L, now]` when `W` does not divide `L`, and `[now - L, now - 1]`
when `W` divides `L` (the instant `now` itself is then not covered). -/
theorem c4_partitioner_amended (now L W : Int) (hL : 0 < L) (hW : 0 < W) :
    timeWindows now L W ≠ []
  ∧ (timeWindows now L W).head?.map TimeWindow.start_time = some (now - L)
  ∧ List.Chain' (fun w1 w2 => w2.start_time = w1.end_time + 1) (timeWindows now L W)
  ∧ (timeWindows now L W).Pairwise (fun w1 w2 => w1.end_time < w2.start_time)
  ∧ (∀ w ∈ timeWindows now L W, w.end_time = min (w.start_time + W - 1) now)
  ∧ (∀ t : Int, (∃ w ∈ timeWindows now L W, w.start_time ≤ t ∧ t ≤ w.end_time)
      ↔ (now - L ≤ t ∧ t ≤ if W ∣ L then now - 1 else now)) := by
  unfold timeWindows
  have hspec := genWindows_spec W now (by omega) L.toNat (now - L) 1 (by omega) (by omega)
  obtain ⟨h1, h2, h3, h4, h5, h6⟩ := hspec
  have hLC : lastCovered W now (now - L) = if W ∣ L then now - 1 else now := by
    unfold lastCovered
    have hs : now - (now - L) = L := by ring
    rw [hs]
  refine ⟨h1, h2, h3, h4, fun w hw => (h5 w hw).1, fun t => ?_⟩
  rw [← hLC]
  exact h6 t

/-- Witness for C4 (amended) at `now = 10`, `L = 7`, `W = 3`. -/
theorem c4_partitioner_amended_witness :
    timeWindows 10 7 3 ≠ []
  ∧ (timeWindows 10 7 3).head?.map TimeWindow.start_time = some (10 - 7)
  ∧ (timeWindows 10 7 3).Pairwise (fun w1 w2 => w1.end_time < w2.start_time)
  ∧ (∃ w ∈ timeWindows 10 7 3, w.start_time ≤ 10 ∧ 10 ≤ w.end_time) := by
  have h := c4_partitioner_amended 10 7 3 (by decide) (by decide)
  exact ⟨h.1, h.2.1, h.2.2.2.1, (h.2.2.2.2.2 10).mpr (by decide)⟩

/-- Witness for C5 at a concrete set of window results. -/
theorem c5_unifier_ranking_witness :
    (unifySymbols [⟨200, ["B", "A"]⟩, ⟨200, ["A"]⟩, ⟨500, ["Z"]⟩]).symbols.length ≤ 350
  ∧ ((unifySymbols [⟨200, ["B", "A"]⟩, ⟨200, ["A"]⟩, ⟨500, ["Z"]⟩]).truncated = true ↔
      350 < (distinctSyms [⟨200, ["B", "A"]⟩, ⟨200, ["A"]⟩, ⟨500, ["Z"]⟩]).length) := by
  have h := c5_unifier_ranking [⟨200, ["B", "A"]⟩, ⟨200, ["A"]⟩, ⟨500, ["Z"]⟩]
  exact ⟨h.2.1, h.2.2⟩

/-- Witness for C8 at a concrete order list. -/
theorem c8_overflow_fallback_witness :
    resultCollectorSummary demoOrders none =
      ⟨200, .fallbackTrunc (demoOrders.take 50) (decide (demoOrders.length > 50))⟩
  ∧ (demoOrders.take 50).length ≤ 50 :=
  c8_overflow_fallback demoOrders

/-- Witness for C9 (amended) at the concrete two-key bus. -/
theorem c9_no_cleanup_witness : (collectResultsFromS3 demoBus).2 = demoBus :=
  c9_no_cleanup demoBus

/-- Witness for C7 at a concrete fuel value. -/
theorem c7_searcher_unbounded_retry_witness :
    searchRun client429 1000 initSearchState = none :=
  c7_searcher_unbounded_retry 1000
